import Mathlib

/-!
Verification development for the Leftover Recipe Finder service.

The definitions below are a shallow embedding of the request-handling logic
of the Express backend (server.js) and of the substitution-cleaning logic of
the React frontend (RecipeCard.js).  JavaScript strings are modelled as Lean
String / List Char, regular-expression replacements are modelled by
executable character-level functions with the same semantics, the in-memory
caches (plain JS objects) are modelled as association lists, and the external
Spoonacular calls are modelled as explicit arguments of type Except Unit
(a network or transport failure is the error case).
-/

/-! Character classes.  JS regex classes are modelled over code points. -/

/-- Test for a lowercase ASCII letter, the class [a-z] of the normalizer. -/
def isLowerAZ (c : Char) : Bool :=
  decide (97 ≤ c.toNat ∧ c.toNat ≤ 122)

/-- Test for the JS regex whitespace class s (space, tab, line terminators
and the Unicode space separators), used by the normalizer and by trim. -/
def isSpaceJS (c : Char) : Bool :=
  decide (c.toNat = 32 ∨ c.toNat = 9 ∨ c.toNat = 10 ∨ c.toNat = 11 ∨
    c.toNat = 12 ∨ c.toNat = 13 ∨ c.toNat = 0xa0 ∨ c.toNat = 0x1680 ∨
    (0x2000 ≤ c.toNat ∧ c.toNat ≤ 0x200a) ∨ c.toNat = 0x2028 ∨
    c.toNat = 0x2029 ∨ c.toNat = 0x202f ∨ c.toNat = 0x205f ∨
    c.toNat = 0x3000 ∨ c.toNat = 0xfeff)

/-- Characters kept by the normalizer: the complement of [^a-z\s]. -/
def allowedChar (c : Char) : Bool :=
  isLowerAZ c || isSpaceJS c

/-! Generic list helpers shared by the embedded routines. -/

/-- Split a character list at every occurrence of a separator character,
the model of the JS split with a one-character separator.  An empty input
yields one empty field, as in JS. -/
def splitOnChar (sep : Char) : List Char → List (List Char)
  | [] => [[]]
  | c :: cs =>
    match splitOnChar sep cs with
    | [] => if c = sep then [[], []] else [[c]]
    | h :: t => if c = sep then [] :: h :: t else (c :: h) :: t

/-- Deduplication worker tracking the set of already emitted strings, the
model of iterating a JS Set constructor over an array. -/
def dedupFirstAux (seen : List String) : List String → List String
  | [] => []
  | x :: xs => if x ∈ seen then dedupFirstAux seen xs else x :: dedupFirstAux (x :: seen) xs

/-- Deduplicate a list of strings keeping the first occurrence of each
element, the model of the JS spread of a Set over an array. -/
def dedupFirst (l : List String) : List String :=
  dedupFirstAux [] l

/-- Lookup in an association list, the model of reading a property of a JS
object used as a map (the two in-memory caches and the static dictionary). -/
def lookupAssoc {α : Type} (m : List (String × α)) (k : String) : Option α :=
  match m with
  | [] => none
  | p :: t => if p.1 = k then some p.2 else lookupAssoc t k

/-! Whitespace collapsing and trimming, the models of the replacements
with the patterns s+ and of the JS trim. -/

/-- Drop leading JS whitespace. -/
def ltrimWS (l : List Char) : List Char :=
  l.dropWhile isSpaceJS

/-- Drop trailing JS whitespace. -/
def rtrimWS (l : List Char) : List Char :=
  (ltrimWS l.reverse).reverse

/-- Drop leading and trailing JS whitespace, the model of the JS trim. -/
def trimWS (l : List Char) : List Char :=
  rtrimWS (ltrimWS l)

/-- Replace every maximal run of JS whitespace by a single space, the model
of replacing the pattern s+ globally by one space. -/
def collapseWS : List Char → List Char
  | [] => []
  | c :: cs =>
    match cs with
    | [] => if isSpaceJS c then [' '] else [c]
    | d :: _ =>
      if isSpaceJS c then
        (if isSpaceJS d then collapseWS cs else ' ' :: collapseWS cs)
      else c :: collapseWS cs

/-! The ingredient normalizer of the recipes route. -/

/-- Lowercasing followed by deletion of every character outside [a-z\s],
the first two steps of normalizeIngredient. -/
def lowerFilter (l : List Char) : List Char :=
  (l.map Char.toLower).filter allowedChar

/-- Character-level body of normalizeIngredient: lowercase, strip every
character outside [a-z\s], collapse whitespace runs to one space, trim. -/
def normChars (l : List Char) : List Char :=
  trimWS (collapseWS (lowerFilter l))

/-- Normalize an ingredient string, the model of normalizeIngredient in the
recipes route of server.js. -/
def normalizeIngredient (s : String) : String :=
  String.mk (normChars s.data)

/-- Lowercase a string, the model of the JS toLowerCase on the ASCII
range (the only range the embedded data exercises). -/
def lowerStr (s : String) : String :=
  String.mk (s.data.map Char.toLower)

/-! The recipes route of server.js: ingredient cleanup, cache key, cache
check, and the decision whether the external catalog is called. -/

/-- Fixed pantry staples always merged into the search, from server.js. -/
def pantry : List String :=
  ["salt", "oil"]

/-- Split the raw ingredients parameter on commas, normalize every token and
drop tokens that are empty after normalization, the model of the
cleanIngredients constant of the recipes route. -/
def cleanIngredients (ingredients : String) : List String :=
  (((splitOnChar ',' ingredients.data).map (fun t => String.mk t)).map
    normalizeIngredient).filter (fun s => decide (s ≠ ""))

/-- Deduplicated normalized ingredient tokens, the model of ingSet. -/
def ingSet (ingredients : String) : List String :=
  dedupFirst (cleanIngredients ingredients)

/-- Pantry augmentation as a set operation: add the staples and dedupe,
keeping first-seen order, the set expression inside finalIngredients. -/
def augment (s : List String) : List String :=
  dedupFirst (s ++ pantry)

/-- Comma-joined augmented ingredient list, the model of finalIngredients. -/
def finalIngredients (ingredients : String) : String :=
  String.intercalate "," (augment (ingSet ingredients))

/-- Parse the optional cuisine query parameter: a missing or empty value
gives the empty list, otherwise split on commas and lowercase each entry,
as in the recipes route. -/
def cuisineParam (q : Option String) : List String :=
  match q with
  | none => []
  | some c => if c = "" then [] else ((splitOnChar ',' c.data).map (fun t => String.mk t)).map lowerStr

/-- Search cache key: finalIngredients, the requested number and the joined
cuisine list separated by vertical bars, the cacheKey template literal. -/
def cacheKey (ingredients : String) (number : Nat) (cuisine : List String) : String :=
  finalIngredients ingredients ++ "|" ++ toString number ++ "|" ++ String.intercalate "," cuisine

/-- Outcome of the prefix of the recipes route that runs before any external
call: a thrown TypeError, a cached response, a 400 input error, or a call to
the external catalog with the augmented ingredient string. -/
inductive SearchOutcome (α : Type) where
  | thrown : SearchOutcome α
  | served : α → SearchOutcome α
  | inputError : SearchOutcome α
  | catalogCall : String → SearchOutcome α
deriving DecidableEq

/-- Model of the recipes route up to the external catalog call.  A missing
ingredients parameter makes the JS split call throw a TypeError; otherwise
the route builds the cache key, serves a cached entry when present, returns
the 400 input error when finalIngredients is empty, and otherwise proceeds
to call the external catalog. -/
def searchDecision {α : Type} (cache : List (String × α)) (ingredients : Option String)
    (number : Nat) (cuisineQ : Option String) : SearchOutcome α :=
  match ingredients with
  | none => SearchOutcome.thrown
  | some ing =>
    let cuisine := cuisineParam cuisineQ
    match lookupAssoc cache (cacheKey ing number cuisine) with
    | some v => SearchOutcome.served v
    | none =>
      if finalIngredients ing = "" then SearchOutcome.inputError
      else SearchOutcome.catalogCall (finalIngredients ing)

/-- Store a computed response in the recipe cache under its key, the model
of the assignment into recipeCache. -/
def storeCache {α : Type} (cache : List (String × α)) (k : String) (v : α) : List (String × α) :=
  (k, v) :: cache

/-! Recipe candidates, enrichment with sourceUrl and ranking. -/

/-- Raw recipe record of the external find-by-ingredients response; the
fields the route reads, with Option for the fields it defaults. -/
structure RawRecipe where
  id : Nat
  title : String
  image : String
  cuisines : Option (List String)
  dishTypes : Option (List String)
  readyInMinutes : Option Nat
  usedIngredients : Option (List String)
  missedIngredients : Option (List String)
deriving DecidableEq

/-- Shaped recipe candidate as built by the recipes route, with sourceUrl
still unresolved (none models the JS null). -/
structure Recipe where
  id : Nat
  title : String
  image : String
  cuisines : List String
  dishTypes : List String
  readyInMinutes : Nat
  usedIngredients : List String
  missedIngredients : List String
  matchesCuisine : Bool
  sourceUrl : Option String
deriving DecidableEq

/-- Shape one raw catalog record into a candidate, the body of the map over
response.data: default the optional fields, compute matchesCuisine from the
requested cuisine list, and set sourceUrl to null. -/
def mkCandidate (cuisine : List String) (r : RawRecipe) : Recipe :=
  { id := r.id
    title := r.title
    image := r.image
    cuisines := r.cuisines.getD []
    dishTypes := r.dishTypes.getD []
    readyInMinutes := r.readyInMinutes.getD 0
    usedIngredients := r.usedIngredients.getD []
    missedIngredients := r.missedIngredients.getD []
    matchesCuisine := cuisine.isEmpty ||
      (r.cuisines.getD []).any (fun c => cuisine.contains (lowerStr c))
    sourceUrl := none }

/-- Resolve the detail lookup of one candidate: a transport failure or a
missing or empty sourceUrl field degrades to the placeholder. -/
def resolveUrl (d : Except Unit (Option String)) : String :=
  match d with
  | Except.error _ => "#"
  | Except.ok du =>
    match du with
    | none => "#"
    | some u => if u = "" then "#" else u

/-- Attach the resolved sourceUrl to a candidate, the body of the detail
loop of the recipes route.  The oracle maps a recipe id to the outcome of
its detail request. -/
def attachUrl (oracle : Nat → Except Unit (Option String)) (r : Recipe) : Recipe :=
  { r with sourceUrl := some (resolveUrl (oracle r.id)) }

/-- Detail-lookup phase over all candidates. -/
def detailPhase (oracle : Nat → Except Unit (Option String)) (rs : List Recipe) : List Recipe :=
  rs.map (attachUrl oracle)

/-- Primary ranking score of a candidate: used minus missed ingredient
count. -/
def score (r : Recipe) : Int :=
  (r.usedIngredients.length : Int) - (r.missedIngredients.length : Int)

/-- Number a boolean as JS coerces it in arithmetic. -/
def boolToInt (b : Bool) : Int :=
  if b then 1 else 0

/-- The comparator passed to the JS sort in the recipes route: descending
primary score, ties broken by matchesCuisine. -/
def cmpRecipes (a b : Recipe) : Int :=
  if score b = score a then boolToInt b.matchesCuisine - boolToInt a.matchesCuisine
  else score b - score a

/-- Ordering predicate induced by the comparator: a may come before b. -/
def recipeLE (a b : Recipe) : Bool :=
  decide (cmpRecipes a b ≤ 0)

/-- Ranking of the candidates.  Array sort with a consistent comparator is
specified by ECMAScript to be a stable sort whose output is ordered by the
comparator, which is exactly mergeSort with the induced ordering. -/
def rankRecipes (rs : List Recipe) : List Recipe :=
  rs.mergeSort recipeLE

/-- Non-cached success path of the recipes route after the external catalog
responded: shape the candidates, attach sourceUrls, rank, truncate.  The
result is both returned to the client and stored in the recipe cache. -/
def searchSuccess (oracle : Nat → Except Unit (Option String)) (cuisine : List String)
    (number : Nat) (raw : List RawRecipe) : List Recipe :=
  (rankRecipes (detailPhase oracle (raw.map (mkCandidate cuisine)))).take number

/-! The substitutions route of server.js. -/

/-- Static dictionary of curated substitutes, copied from the defaultSubs
object of the substitutions route. -/
def defaultSubs : List (String × List String) :=
  [("milk", ["oat milk", "almond milk", "soy milk"]),
   ("butter", ["margarine", "coconut oil", "olive oil"]),
   ("egg", ["flax egg", "chia egg", "applesauce"]),
   ("sugar", ["honey", "maple syrup", "coconut sugar"]),
   ("cheese", ["nutritional yeast", "vegan cheese"]),
   ("cream", ["coconut cream", "cashew cream"]),
   ("flour", ["almond flour", "oat flour"]),
   ("basil", ["oregano", "thyme", "spinach"]),
   ("broccoli", ["cauliflower", "brussels sprouts", "asparagus"]),
   ("garlic", ["shallots", "garlic powder", "chives"]),
   ("chicken", ["tofu", "jackfruit"]),
   ("tomato", ["canned tomatoes", "tomato sauce", "tomato paste + water"]),
   ("onion", ["shallots", "leeks", "onion powder"]),
   ("potato", ["sweet potato", "cauliflower", "turnips"]),
   ("carrot", ["sweet potato", "butternut squash", "parsnips"]),
   ("bell_pepper", ["poblano", "zucchini", "carrot"]),
   ("spinach", ["kale", "arugula", "chard"]),
   ("lemon", ["lime", "vinegar + a pinch of sugar"]),
   ("lime", ["lemon", "white vinegar"]),
   ("rice", ["quinoa", "cauliflower rice"]),
   ("pasta", ["zoodles", "rice noodles", "quinoa"]),
   ("ground_beef", ["turkey", "chicken", "lentils"]),
   ("beef", ["mushrooms", "jackfruit", "seitan"]),
   ("fish", ["tofu", "tempeh", "chickpeas"]),
   ("soy_sauce", ["tamari", "coconut aminos", "Worcestershire"]),
   ("vinegar", ["lemon juice", "lime juice"]),
   ("oil", ["butter", "ghee", "coconut oil"]),
   ("honey", ["maple syrup", "agave"]),
   ("vanilla", ["almond extract", "maple syrup"]),
   ("breadcrumbs", ["crushed crackers", "rolled oats", "panko"]),
   ("cornstarch", ["flour", "arrowroot powder", "potato starch"]),
   ("baking_powder", ["baking soda + cream of tartar"]),
   ("baking_soda", ["baking powder (use 3x amount)"])]

/-- Payload of the external substitution endpoint: an optional status field
and an optional list of substitutes, matching the fields the route reads. -/
structure ExtSubs where
  status : Option String
  substitutes : Option (List String)
deriving DecidableEq

/-- Response of the substitutions route: HTTP status plus the substitutes
list sent in the JSON body. -/
structure SubsResponse where
  status : Nat
  substitutes : List String
deriving DecidableEq

/-- Model of the substitutions route.  The external call is an explicit
argument: error models a network or transport failure caught by the catch
handler.  The function returns the response together with the updated
substitution cache. -/
def substitutionsRoute (cache : List (String × List String)) (ingredient : Option String)
    (ext : Except Unit ExtSubs) : SubsResponse × List (String × List String) :=
  match ingredient with
  | none => ({ status := 400, substitutes := ["Please provide an ingredient name"] }, cache)
  | some ing =>
    if ing = "" then
      ({ status := 400, substitutes := ["Please provide an ingredient name"] }, cache)
    else
      let lower := lowerStr ing
      match lookupAssoc cache lower with
      | some cached => ({ status := 200, substitutes := cached }, cache)
      | none =>
        match lookupAssoc defaultSubs lower with
        | some ds => ({ status := 200, substitutes := ds }, cache)
        | none =>
          match ext with
          | Except.error _ =>
            ({ status := 200, substitutes := ["No known substitutes for " ++ ing] }, cache)
          | Except.ok resp =>
            if resp.status = some "failure" ∨ resp.substitutes = none then
              ({ status := 200, substitutes := ["No known substitutes for " ++ ing] }, cache)
            else
              ({ status := 200, substitutes := resp.substitutes.getD [] },
                (lower, resp.substitutes.getD []) :: cache)

/-! Frontend cleaning of substitute strings, from fetchSubstitutions in
RecipeCard.js.  The two regex replacements are modelled character by
character; the loops walk the scan position of the global regex and use the
input length as structural fuel, which every step strictly consumes. -/

/-- Test for a JS regex line terminator, which the dot does not match. -/
def lineTermChar (c : Char) : Bool :=
  decide (c.toNat = 10 ∨ c.toNat = 13 ∨ c.toNat = 0x2028 ∨ c.toNat = 0x2029)

/-- Suffix of a line after its last equals sign. -/
def afterLastEq (line : List Char) : List Char :=
  (line.reverse.takeWhile (fun c => decide (c ≠ '='))).reverse

/-- Worker for the global replacement of the label pattern (dot-star,
equals, whitespace-star) by the empty string.  A match can start wherever
the remaining segment of the current line still contains an equals sign; the
greedy dot-star then reaches the last equals sign of the line and the
whitespace-star eats the following whitespace, line breaks included. -/
def stripLabelGo : Nat → List Char → List Char
  | 0, l => l
  | _ + 1, [] => []
  | fuel + 1, l =>
    let line := l.takeWhile (fun c => !(lineTermChar c))
    let rest := l.dropWhile (fun c => !(lineTermChar c))
    if '=' ∈ line then
      stripLabelGo fuel ((afterLastEq line ++ rest).dropWhile isSpaceJS)
    else
      match rest with
      | [] => line
      | t :: ts => line ++ t :: stripLabelGo fuel ts

/-- Strip label metadata, the model of the first replace call. -/
def stripLabel (l : List Char) : List Char :=
  stripLabelGo l.length l

/-- Test for a decimal digit, the regex class d. -/
def isDigitCh (c : Char) : Bool :=
  decide (48 ≤ c.toNat ∧ c.toNat ≤ 57)

/-- Test for a regex word character, the class used by word boundaries. -/
def isWordChar (c : Char) : Bool :=
  decide ((65 ≤ c.toNat ∧ c.toNat ≤ 90) ∨ (97 ≤ c.toNat ∧ c.toNat ≤ 122) ∨
    (48 ≤ c.toNat ∧ c.toNat ≤ 57) ∨ c.toNat = 95)

/-- Ordered expansion of the unit alternation of the quantity regex; each
optional plural s is expanded greedily, longer variant first. -/
def unitAlternatives : List (List Char) :=
  ["cup".data, "tbsp".data, "tsp".data, "oz".data, "grams".data, "gram".data,
   "ml".data, "cups".data, "cup".data, "tablespoons".data, "tablespoon".data,
   "teaspoons".data, "teaspoon".data]

/-- Match a lowercase literal case-insensitively at the head of the input,
returning the remaining input on success. -/
def matchLit (lit : List Char) (l : List Char) : Option (List Char) :=
  match lit, l with
  | [], rest => some rest
  | _ :: _, [] => none
  | a :: as2, c :: cs => if Char.toLower c = a then matchLit as2 cs else none

/-- Word boundary check after a match: end of input or a non-word char. -/
def boundaryAfter (l : List Char) : Bool :=
  match l with
  | [] => true
  | c :: _ => !(isWordChar c)

/-- Try the unit alternatives in regex order at the given position; on
success return the last character of the matched unit together with the
remaining input. -/
def tryUnitList : List (List Char) → List Char → Option (Char × List Char)
  | [], _ => none
  | u :: us, l =>
    match matchLit u l with
    | some rest => if boundaryAfter rest then some (u.getLastD 'x', rest) else tryUnitList us l
    | none => tryUnitList us l

/-- Try to match the quantity pattern (digits, optional whitespace, unit,
word boundary) at a position known to start with a digit. -/
def tryUnitMatch (l : List Char) : Option (Char × List Char) :=
  tryUnitList unitAlternatives ((l.dropWhile isDigitCh).dropWhile isSpaceJS)

/-- Worker for the global case-insensitive removal of quantity plus unit
tokens.  The Option argument is the character before the scan position,
used for the leading word boundary. -/
def stripUnitsGo : Nat → Option Char → List Char → List Char
  | 0, _, l => l
  | _ + 1, _, [] => []
  | fuel + 1, prev, c :: cs =>
    if (match prev with | none => true | some p => !(isWordChar p)) && isDigitCh c then
      match tryUnitMatch (c :: cs) with
      | some (lastc, rest) => stripUnitsGo fuel (some lastc) rest
      | none => c :: stripUnitsGo fuel (some c) cs
    else c :: stripUnitsGo fuel (some c) cs

/-- Strip quantity and unit tokens, the model of the second replace call. -/
def stripUnits (l : List Char) : List Char :=
  stripUnitsGo l.length none l

/-- Clean one substitute string: strip label metadata, strip quantity and
unit tokens, trim, as in the map inside fetchSubstitutions. -/
def cleanSubString (s : String) : String :=
  String.mk (trimWS (stripUnits (stripLabel s.data)))

/-- Trim a string, the model of the JS trim call in the dedup step. -/
def trimStr (s : String) : String :=
  String.mk (trimWS s.data)

/-- Clean all substitute strings and drop the empty ones, the cleanSubs
constant of fetchSubstitutions. -/
def cleanSubs (subs : List String) : List String :=
  (subs.map cleanSubString).filter (fun s => decide (0 < s.length))

/-- Trim again and deduplicate keeping first occurrences, the uniqueSubs
constant of fetchSubstitutions. -/
def uniqueSubs (subs : List String) : List String :=
  dedupFirst ((cleanSubs subs).map trimStr)

/-- Final display list stored in component state: the cleaned unique list,
or the sentinel entry when cleaning left nothing. -/
def displaySubs (ingredient : String) (subs : List String) : List String :=
  if 0 < (uniqueSubs subs).length then uniqueSubs subs
  else ["No known substitutes for " ++ ingredient]

/-- Outcome of the frontend fetchSubstitutions call: a failure of the
request to the backend itself is caught and stored as the fetch-failure
sentinel; a successful response is cleaned for display. -/
def fetchSubsOutcome (ingredient : String) (backend : Except Unit (List String)) : List String :=
  match backend with
  | Except.error _ => ["Could not fetch substitutes."]
  | Except.ok subs => displaySubs ingredient subs

/-! Properties of the deduplication helper. -/

theorem mem_dedupFirstAux (l : List String) :
    ∀ (seen : List String) (x : String), x ∈ dedupFirstAux seen l ↔ x ∈ l ∧ x ∉ seen := by
  induction l with
  | nil => intro seen x; simp [dedupFirstAux]
  | cons y ys ih =>
    intro seen x
    by_cases h : y ∈ seen
    · rw [dedupFirstAux, if_pos h, ih]
      constructor
      · rintro ⟨h1, h2⟩; exact ⟨List.mem_cons_of_mem _ h1, h2⟩
      · rintro ⟨h1, h2⟩
        rcases List.mem_cons.mp h1 with h3 | h3
        · exact absurd (h3 ▸ h) h2
        · exact ⟨h3, h2⟩
    · rw [dedupFirstAux, if_neg h]
      constructor
      · intro hx
        rcases List.mem_cons.mp hx with h3 | h3
        · exact h3 ▸ ⟨List.mem_cons_self _ _, h3 ▸ h⟩
        · have h4 := (ih _ _).mp h3
          exact ⟨List.mem_cons_of_mem _ h4.1, fun hs => h4.2 (List.mem_cons_of_mem _ hs)⟩
      · rintro ⟨h1, h2⟩
        rcases List.mem_cons.mp h1 with h3 | h3
        · exact h3 ▸ List.mem_cons_self _ _
        · by_cases hxy : x = y
          · exact hxy ▸ List.mem_cons_self _ _
          · refine List.mem_cons_of_mem _ ((ih _ _).mpr ⟨h3, fun hs => ?_⟩)
            rcases List.mem_cons.mp hs with h4 | h4
            · exact hxy h4
            · exact h2 h4

theorem mem_dedupFirst (l : List String) (x : String) : x ∈ dedupFirst l ↔ x ∈ l := by
  rw [dedupFirst, mem_dedupFirstAux]
  simp

theorem dedupFirstAux_sublist (l : List String) : ∀ seen, List.Sublist (dedupFirstAux seen l) l := by
  induction l with
  | nil => intro seen; simp [dedupFirstAux]
  | cons y ys ih =>
    intro seen
    rw [dedupFirstAux]
    by_cases h : y ∈ seen
    · rw [if_pos h]; exact (ih seen).cons y
    · rw [if_neg h]; exact (ih (y :: seen)).cons₂ y

theorem dedupFirst_sublist (l : List String) : List.Sublist (dedupFirst l) l :=
  dedupFirstAux_sublist l []

theorem nodup_dedupFirstAux (l : List String) : ∀ seen, (dedupFirstAux seen l).Nodup := by
  induction l with
  | nil => intro seen; simp [dedupFirstAux]
  | cons y ys ih =>
    intro seen
    rw [dedupFirstAux]
    by_cases h : y ∈ seen
    · rw [if_pos h]; exact ih seen
    · rw [if_neg h]
      refine List.nodup_cons.mpr ⟨fun hmem => ?_, ih (y :: seen)⟩
      exact ((mem_dedupFirstAux ys (y :: seen) y).mp hmem).2 (List.mem_cons_self _ _)

theorem nodup_dedupFirst (l : List String) : (dedupFirst l).Nodup :=
  nodup_dedupFirstAux l []

theorem dedupFirstAux_eq_self (l : List String) :
    ∀ seen, l.Nodup → (∀ x ∈ l, x ∉ seen) → dedupFirstAux seen l = l := by
  induction l with
  | nil => intro seen _ _; rfl
  | cons y ys ih =>
    intro seen hnd hsub
    rw [dedupFirstAux, if_neg (hsub y (List.mem_cons_self _ _))]
    rw [ih (y :: seen) (List.nodup_cons.mp hnd).2]
    intro x hx
    intro hmem
    rcases List.mem_cons.mp hmem with h4 | h4
    · exact (List.nodup_cons.mp hnd).1 (h4 ▸ hx)
    · exact hsub x (List.mem_cons_of_mem _ hx) h4

theorem dedupFirst_idem (l : List String) : dedupFirst (dedupFirst l) = dedupFirst l :=
  dedupFirstAux_eq_self (dedupFirst l) [] (nodup_dedupFirst l) (by simp)

theorem dedupFirstAux_nil_of_seen (t : List String) :
    ∀ seen, (∀ x ∈ t, x ∈ seen) → dedupFirstAux seen t = [] := by
  induction t with
  | nil => intro seen _; rfl
  | cons y ys ih =>
    intro seen hsub
    rw [dedupFirstAux, if_pos (hsub y (List.mem_cons_self _ _))]
    exact ih seen (fun x hx => hsub x (List.mem_cons_of_mem _ hx))

theorem dedupFirstAux_append_absorb (l : List String) :
    ∀ (t seen : List String), (∀ x ∈ t, x ∈ l ∨ x ∈ seen) →
      dedupFirstAux seen (l ++ t) = dedupFirstAux seen l := by
  induction l with
  | nil =>
    intro t seen hsub
    rw [List.nil_append]
    exact dedupFirstAux_nil_of_seen t seen (fun x hx => ((hsub x hx).resolve_left (by simp)))
  | cons y ys ih =>
    intro t seen hsub
    rw [List.cons_append, dedupFirstAux, dedupFirstAux]
    by_cases h : y ∈ seen
    · rw [if_pos h, if_pos h]
      refine ih t seen (fun x hx => ?_)
      rcases hsub x hx with h3 | h3
      · rcases List.mem_cons.mp h3 with h4 | h4
        · exact Or.inr (h4 ▸ h)
        · exact Or.inl h4
      · exact Or.inr h3
    · rw [if_neg h, if_neg h]
      refine congrArg (y :: ·) (ih t (y :: seen) (fun x hx => ?_))
      rcases hsub x hx with h3 | h3
      · rcases List.mem_cons.mp h3 with h4 | h4
        · exact Or.inr (h4 ▸ List.mem_cons_self _ _)
        · exact Or.inl h4
      · exact Or.inr (List.mem_cons_of_mem _ h3)

theorem dedupFirst_append_absorb (l t : List String) (h : ∀ x ∈ t, x ∈ l) :
    dedupFirst (l ++ t) = dedupFirst l :=
  dedupFirstAux_append_absorb l t [] (fun x hx => Or.inl (h x hx))

/-! Properties of pantry augmentation. -/

theorem mem_augment (s : List String) (x : String) :
    x ∈ augment s ↔ x ∈ s ∨ x = "salt" ∨ x = "oil" := by
  rw [augment, mem_dedupFirst, List.mem_append]
  simp [pantry]

theorem augment_idem (s : List String) : augment (augment s) = augment s := by
  rw [augment, dedupFirst_append_absorb (augment s) pantry]
  · exact dedupFirst_idem (s ++ pantry)
  · intro x hx
    rw [mem_augment]
    simp only [pantry, List.mem_cons, List.not_mem_nil, or_false] at hx
    rcases hx with h | h
    · exact Or.inr (Or.inl h)
    · exact Or.inr (Or.inr h)

/-! The joined ingredient string is never empty because of the staples. -/

theorem intercalate_go_length (l : List String) :
    ∀ (acc sep : String), acc.length ≤ (String.intercalate.go acc sep l).length := by
  induction l with
  | nil => intro acc sep; rw [String.intercalate.go]
  | cons a t ih =>
    intro acc sep
    rw [String.intercalate.go]
    calc acc.length ≤ (acc ++ sep ++ a).length := by
          rw [String.length_append, String.length_append]; omega
      _ ≤ (String.intercalate.go (acc ++ sep ++ a) sep t).length := ih _ _

theorem length_le_intercalate_go (l : List String) :
    ∀ (acc sep x : String), x ∈ l → x.length ≤ (String.intercalate.go acc sep l).length := by
  induction l with
  | nil => intro acc sep x hx; cases hx
  | cons a t ih =>
    intro acc sep x hx
    rw [String.intercalate.go]
    rcases List.mem_cons.mp hx with h | h
    · subst h
      calc x.length ≤ (acc ++ sep ++ x).length := by
            rw [String.length_append, String.length_append]; omega
        _ ≤ _ := intercalate_go_length t _ _
    · exact ih _ _ _ h

theorem intercalate_ne_empty_of_mem (L : List String) (sep x : String)
    (hx : x ∈ L) (hne : x ≠ "") : String.intercalate sep L ≠ "" := by
  intro hcon
  match L, hx with
  | a :: t, hx =>
    rw [String.intercalate] at hcon
    have h1 : x.length ≤ (String.intercalate.go a sep t).length := by
      rcases List.mem_cons.mp hx with h | h
      · calc x.length = a.length := by rw [h]
          _ ≤ _ := intercalate_go_length t a sep
      · exact length_le_intercalate_go t a sep x h
    rw [hcon] at h1
    have h2 : 0 < x.length := by
      cases x with
      | mk data =>
        cases data with
        | nil => exact absurd rfl hne
        | cons c cs => simp [String.length]
    have h3 : ("" : String).length = 0 := rfl
    omega

theorem finalIngredients_ne_empty (ing : String) : finalIngredients ing ≠ "" := by
  rw [finalIngredients]
  refine intercalate_ne_empty_of_mem _ _ "salt" ?_ (by decide)
  rw [mem_augment]
  exact Or.inr (Or.inl rfl)

/-- C9: pantry augmentation always contains the staples salt and oil, never
produces duplicate keys, is idempotent, sends both the singleton salt set
and the set containing oil and salt to the two-staple set, and is
order-independent as a set operation. -/
theorem c9_pantry_augment :
    (∀ s : List String, "salt" ∈ augment s ∧ "oil" ∈ augment s) ∧
    (∀ s : List String, (augment s).Nodup) ∧
    (∀ s : List String, augment (augment s) = augment s) ∧
    (∀ x : String, x ∈ augment ["salt"] ↔ x = "salt" ∨ x = "oil") ∧
    (∀ x : String, x ∈ augment ["oil", "salt"] ↔ x = "salt" ∨ x = "oil") ∧
    (∀ s t : List String, (∀ x, x ∈ s ↔ x ∈ t) → ∀ x, x ∈ augment s ↔ x ∈ augment t) := by
  refine ⟨fun s => ⟨?_, ?_⟩, fun s => nodup_dedupFirst _, fun s => augment_idem s, ?_, ?_, ?_⟩
  · rw [mem_augment]; exact Or.inr (Or.inl rfl)
  · rw [mem_augment]; exact Or.inr (Or.inr rfl)
  · intro x
    rw [mem_augment]
    simp only [List.mem_singleton]
    tauto
  · intro x
    rw [mem_augment]
    simp only [List.mem_cons, List.not_mem_nil, or_false]
    tauto
  · intro s t hst x
    rw [mem_augment, mem_augment, hst]

/-- Witness for C9: order-independence applied to two concrete ingredient
sets with the same elements. -/
theorem c9_pantry_augment_witness :
    "a" ∈ augment ["a"] ↔ "a" ∈ augment ["a", "a"] :=
  c9_pantry_augment.2.2.2.2.2 ["a"] ["a", "a"] (fun x => by simp) "a"

set_option maxRecDepth 8000 in
/-- C2 records a code bug: the route appends the pantry staples before the
emptiness check, so a blank ingredients parameter never takes the 400
branch; instead the route proceeds to call the external catalog with the
staples alone.  The first conjunct evaluates the route on the blank input;
the second shows the 400 branch is unreachable for every request that
carries an ingredients parameter. -/
theorem c2_empty_ingredients_code_bug :
    searchDecision ([] : List (String × List Recipe)) (some "") 3 none =
      SearchOutcome.catalogCall "salt,oil" ∧
    (∀ (cache : List (String × List Recipe)) (ing : String) (n : Nat) (q : Option String),
      decide (searchDecision cache (some ing) n q = SearchOutcome.inputError) = false) := by
  constructor
  · decide
  · intro cache ing n q
    rw [decide_eq_false_iff_not]
    intro hcon
    rw [searchDecision] at hcon
    rcases h : lookupAssoc cache (cacheKey ing n (cuisineParam q)) with _ | v
    · rw [h] at hcon
      rw [if_neg (finalIngredients_ne_empty ing)] at hcon
      exact SearchOutcome.noConfusion hcon
    · rw [h] at hcon
      exact SearchOutcome.noConfusion hcon

/-- C5: the substitution tiers are consulted in the order cache, static
dictionary, external catalog, first hit wins: a cache hit is returned
verbatim with no state change whatever the dictionary or the external
catalog would answer; a dictionary hit is returned without writing the
cache; an external success stores the raw substitute list in the cache
keyed by the lowercase ingredient and returns it. -/
theorem c5_substitution_tiers :
    (∀ (cache : List (String × List String)) (ing : String) (v : List String)
        (ext : Except Unit ExtSubs),
      ing ≠ "" → lookupAssoc cache (lowerStr ing) = some v →
      substitutionsRoute cache (some ing) ext =
        ({ status := 200, substitutes := v }, cache)) ∧
    (∀ (cache : List (String × List String)) (ing : String) (d : List String)
        (ext : Except Unit ExtSubs),
      ing ≠ "" → lookupAssoc cache (lowerStr ing) = none →
      lookupAssoc defaultSubs (lowerStr ing) = some d →
      substitutionsRoute cache (some ing) ext =
        ({ status := 200, substitutes := d }, cache)) ∧
    (∀ (cache : List (String × List String)) (ing : String) (st : Option String)
        (subs : List String),
      ing ≠ "" → lookupAssoc cache (lowerStr ing) = none →
      lookupAssoc defaultSubs (lowerStr ing) = none → st ≠ some "failure" →
      substitutionsRoute cache (some ing)
          (Except.ok { status := st, substitutes := some subs }) =
        ({ status := 200, substitutes := subs }, (lowerStr ing, subs) :: cache)) := by
  refine ⟨?_, ?_, ?_⟩
  · intro cache ing v ext hne hc
    simp [substitutionsRoute, hne, hc]
  · intro cache ing d ext hne hc hd
    simp [substitutionsRoute, hne, hc, hd]
  · intro cache ing st subs hne hc hd hst
    simp [substitutionsRoute, hne, hc, hd, hst]

/-- Witness for C5: the cache tier wins for milk even though milk is in the
static dictionary; the dictionary answers milk on a cache miss without a
cache write; an external success for paprika is cached under paprika. -/
theorem c5_substitution_tiers_witness :
    substitutionsRoute [("milk", ["cached entry"])] (some "milk") (Except.error ()) =
      ({ status := 200, substitutes := ["cached entry"] }, [("milk", ["cached entry"])]) ∧
    substitutionsRoute [] (some "milk") (Except.error ()) =
      ({ status := 200, substitutes := ["oat milk", "almond milk", "soy milk"] }, []) ∧
    substitutionsRoute [] (some "paprika")
        (Except.ok { status := none, substitutes := some ["smoked pepper"] }) =
      ({ status := 200, substitutes := ["smoked pepper"] }, [("paprika", ["smoked pepper"])]) :=
  ⟨c5_substitution_tiers.1 _ _ _ _ (by decide) (by decide),
   c5_substitution_tiers.2.1 _ _ _ _ (by decide) (by decide) (by decide),
   c5_substitution_tiers.2.2 _ _ _ _ (by decide) (by decide) (by decide) (by decide)⟩

/-- C3 counterexample: when the external substitution call fails with a
network error for an ingredient outside cache and dictionary, the route
answers with the no-known-substitutes sentinel, not with the list
containing the could-not-fetch message the claim states, and writes
nothing into the cache. -/
theorem c3_counterexample :
    (substitutionsRoute [] (some "paprika") (Except.error ())).1.substitutes =
      ["No known substitutes for paprika"] ∧
    decide ((substitutionsRoute [] (some "paprika") (Except.error ())).1.substitutes =
      ["Could not fetch substitutes."]) = false ∧
    (substitutionsRoute [] (some "paprika") (Except.error ())).2 = [] :=
  ⟨by decide, by decide, by decide⟩

/-- C3 amended: a network or transport failure of the external substitution
call makes the route degrade to the no-known-substitutes sentinel without
writing the cache; the could-not-fetch sentinel is produced only by the
frontend when its own request to the backend fails. -/
theorem c3_network_failure_amended :
    ∀ (cache : List (String × List String)) (ing : String),
      ing ≠ "" → lookupAssoc cache (lowerStr ing) = none →
      lookupAssoc defaultSubs (lowerStr ing) = none →
      substitutionsRoute cache (some ing) (Except.error ()) =
        ({ status := 200, substitutes := ["No known substitutes for " ++ ing] }, cache) ∧
      fetchSubsOutcome ing (Except.error ()) = ["Could not fetch substitutes."] := by
  intro cache ing hne hc hd
  constructor
  · simp [substitutionsRoute, hne, hc, hd]
  · rfl

/-- Witness for the amended C3 at a concrete ingredient. -/
theorem c3_network_failure_amended_witness :
    substitutionsRoute [] (some "paprika") (Except.error ()) =
      ({ status := 200, substitutes := ["No known substitutes for paprika"] }, []) ∧
    fetchSubsOutcome "paprika" (Except.error ()) = ["Could not fetch substitutes."] :=
  c3_network_failure_amended [] "paprika" (by decide) (by decide) (by decide)

/-- C6: the detail-lookup phase never drops a candidate, and a failing
detail lookup only degrades that candidate to the placeholder: with three
candidates and a failure on exactly the second, the output still has three
candidates, the second carries the placeholder and the other two carry
their looked-up urls. -/
theorem c6_detail_failure_isolated :
    (∀ (oracle : Nat → Except Unit (Option String)) (rs : List Recipe),
      (detailPhase oracle rs).length = rs.length) ∧
    (∀ (oracle : Nat → Except Unit (Option String)) (r1 r2 r3 : Recipe) (u1 u3 : String),
      oracle r1.id = Except.ok (some u1) → u1 ≠ "" →
      oracle r2.id = Except.error () →
      oracle r3.id = Except.ok (some u3) → u3 ≠ "" →
      detailPhase oracle [r1, r2, r3] =
        [{ r1 with sourceUrl := some u1 }, { r2 with sourceUrl := some "#" },
         { r3 with sourceUrl := some u3 }]) := by
  constructor
  · intro oracle rs; simp [detailPhase]
  · intro oracle r1 r2 r3 u1 u3 h1 hne1 h2 h3 hne3
    simp [detailPhase, attachUrl, resolveUrl, h1, h2, h3, hne1, hne3]

/-- Sample candidate used by concrete witnesses. -/
def sampleRecipe (n : Nat) : Recipe :=
  { id := n, title := "sample", image := "", cuisines := [], dishTypes := [],
    readyInMinutes := 5, usedIngredients := ["tomato"], missedIngredients := [],
    matchesCuisine := true, sourceUrl := none }

/-- Witness for C6 with three concrete candidates, the second of which has
a failing detail lookup. -/
theorem c6_detail_failure_isolated_witness :
    detailPhase (fun n => if n = 2 then Except.error () else Except.ok (some "https://r.example"))
        [sampleRecipe 1, sampleRecipe 2, sampleRecipe 3] =
      [{ sampleRecipe 1 with sourceUrl := some "https://r.example" },
       { sampleRecipe 2 with sourceUrl := some "#" },
       { sampleRecipe 3 with sourceUrl := some "https://r.example" }] :=
  c6_detail_failure_isolated.2 _ _ _ _ _ _ rfl (by decide) rfl rfl (by decide)

/-- C10: candidates are constructed with a null sourceUrl, and on the
non-cached success path every candidate of the returned and cached sequence
carries an assigned sourceUrl, either the looked-up url or the
placeholder. -/
theorem c10_source_url_assigned :
    ∀ (oracle : Nat → Except Unit (Option String)) (cuisine : List String)
      (number : Nat) (raw : List RawRecipe),
      ((raw.map (mkCandidate cuisine)).all (fun r => r.sourceUrl.isNone)) = true ∧
      ((searchSuccess oracle cuisine number raw).all (fun r => r.sourceUrl.isSome)) = true := by
  intro oracle cuisine number raw
  constructor
  · rw [List.all_eq_true]
    intro r hr
    rcases List.mem_map.mp hr with ⟨r0, _, rfl⟩
    rfl
  · rw [List.all_eq_true]
    intro r hr
    rw [searchSuccess] at hr
    have h1 := List.mem_of_mem_take hr
    rw [rankRecipes, List.mem_mergeSort, detailPhase] at h1
    rcases List.mem_map.mp h1 with ⟨r0, _, rfl⟩
    rfl

/-! The comparator induces a total preorder, so the JS sort contract
applies. -/

theorem recipeLE_iff (a b : Recipe) :
    recipeLE a b = true ↔
      (score b < score a ∨
        (score b = score a ∧ boolToInt b.matchesCuisine ≤ boolToInt a.matchesCuisine)) := by
  by_cases h : score b = score a
  · simp [recipeLE, cmpRecipes, h]
  · simp [recipeLE, cmpRecipes, h]
    omega

theorem recipeLE_trans : ∀ a b c : Recipe, recipeLE a b → recipeLE b c → recipeLE a c := by
  intro a b c hab hbc
  rw [recipeLE_iff] at hab hbc ⊢
  omega

theorem recipeLE_total : ∀ a b : Recipe, recipeLE a b || recipeLE b a := by
  intro a b
  rw [Bool.or_eq_true, recipeLE_iff, recipeLE_iff]
  omega

/-- C4: ranking permutes the candidates, orders them by descending primary
score with the cuisine flag breaking score ties true before false, and is
stable: for every rank class, given by a score value and a cuisine flag,
the candidates of that class appear in the output in exactly their input
order. -/
theorem c4_rank_stable_sort :
    ∀ rs : List Recipe,
      (rankRecipes rs).Perm rs ∧
      (rankRecipes rs).Pairwise (fun a b =>
        score b < score a ∨
          (score a = score b ∧ ((!b.matchesCuisine) || a.matchesCuisine) = true)) ∧
      (∀ (sc : Int) (mc : Bool),
        (rankRecipes rs).filter (fun r => decide (score r = sc) && (r.matchesCuisine == mc)) =
          rs.filter (fun r => decide (score r = sc) && (r.matchesCuisine == mc))) := by
  intro rs
  refine ⟨List.mergeSort_perm rs recipeLE, ?_, ?_⟩
  · have h := List.sorted_mergeSort recipeLE_trans recipeLE_total rs
    refine h.imp ?_
    intro a b hab
    rw [recipeLE_iff] at hab
    rcases hab with h1 | ⟨h2, h3⟩
    · exact Or.inl h1
    · refine Or.inr ⟨h2.symm, ?_⟩
      cases hb : b.matchesCuisine <;> cases ha : a.matchesCuisine
      · rfl
      · rfl
      · rw [hb, ha] at h3
        simp [boolToInt] at h3
      · rfl
  · intro sc mc
    have hmem : ∀ x ∈ rs.filter (fun r => decide (score r = sc) && (r.matchesCuisine == mc)),
        (decide (score x = sc) && (x.matchesCuisine == mc)) = true :=
      fun x hx => (List.mem_filter.mp hx).2
    have hpair : (rs.filter (fun r => decide (score r = sc) && (r.matchesCuisine == mc))).Pairwise
        (fun a b => recipeLE a b = true) := by
      refine List.pairwise_of_forall_mem_list ?_
      intro a ha b hb
      have hpa := (List.mem_filter.mp ha).2
      have hpb := (List.mem_filter.mp hb).2
      simp only [Bool.and_eq_true, decide_eq_true_eq, beq_iff_eq] at hpa hpb
      rw [recipeLE_iff]
      refine Or.inr ⟨?_, ?_⟩
      · rw [hpa.1, hpb.1]
      · rw [hpa.2, hpb.2]
    have hsub := List.sublist_mergeSort recipeLE_trans recipeLE_total hpair
      (List.filter_sublist rs)
    have hperm := (List.mergeSort_perm rs recipeLE).filter
      (fun r => decide (score r = sc) && (r.matchesCuisine == mc))
    have hsub2 := hsub.filter (fun r => decide (score r = sc) && (r.matchesCuisine == mc))
    rw [List.filter_eq_self.mpr hmem] at hsub2
    exact (hsub2.eq_of_length hperm.length_eq.symm).symm

/-! Idempotence of the ingredient normalizer. -/

theorem toLower_fix (c : Char) (h : isLowerAZ c = true ∨ c = ' ') : Char.toLower c = c := by
  have hn : ¬(Char.toNat c ≥ 65 ∧ Char.toNat c ≤ 90) := by
    rcases h with h | h
    · rw [isLowerAZ, decide_eq_true_iff] at h
      omega
    · rw [h]
      decide
  unfold Char.toLower
  exact if_neg hn

theorem mem_collapseWS : ∀ (l : List Char) (c : Char),
    c ∈ collapseWS l → c = ' ' ∨ (isSpaceJS c = false ∧ c ∈ l) := by
  intro l
  induction l with
  | nil => intro c hc; simp [collapseWS] at hc
  | cons a cs ih =>
    intro c hc
    cases cs with
    | nil =>
      by_cases ha : isSpaceJS a
      · simp only [collapseWS, if_pos ha] at hc
        rw [List.mem_singleton] at hc
        exact Or.inl hc
      · simp only [collapseWS, if_neg ha] at hc
        rw [List.mem_singleton] at hc
        subst hc
        exact Or.inr ⟨by simpa using ha, List.mem_cons_self _ _⟩
    | cons d t =>
      by_cases ha : isSpaceJS a
      · by_cases hd : isSpaceJS d
        · rw [show collapseWS (a :: d :: t) = collapseWS (d :: t) by
            simp [collapseWS, ha, hd]] at hc
          rcases ih c hc with h | ⟨h1, h2⟩
          · exact Or.inl h
          · exact Or.inr ⟨h1, List.mem_cons_of_mem _ h2⟩
        · rw [show collapseWS (a :: d :: t) = ' ' :: collapseWS (d :: t) by
            simp [collapseWS, ha, hd]] at hc
          rcases List.mem_cons.mp hc with h | h
          · exact Or.inl h
          · rcases ih c h with h2 | ⟨h2, h3⟩
            · exact Or.inl h2
            · exact Or.inr ⟨h2, List.mem_cons_of_mem _ h3⟩
      · rw [show collapseWS (a :: d :: t) = a :: collapseWS (d :: t) by
          simp [collapseWS, ha]] at hc
        rcases List.mem_cons.mp hc with h | h
        · subst h
          exact Or.inr ⟨by simpa using ha, List.mem_cons_self _ _⟩
        · rcases ih c h with h2 | ⟨h2, h3⟩
          · exact Or.inl h2
          · exact Or.inr ⟨h2, List.mem_cons_of_mem _ h3⟩

theorem collapseWS_cons_of_not_space (d : Char) (t : List Char) (hd : isSpaceJS d = false) :
    collapseWS (d :: t) = d :: collapseWS t := by
  cases t with
  | nil => simp [collapseWS, hd]
  | cons e u => simp [collapseWS, hd]

/-- Relation stating that two adjacent characters are not both whitespace. -/
def NSSrel (a b : Char) : Prop :=
  isSpaceJS a = false ∨ isSpaceJS b = false

theorem nss_collapseWS : ∀ l : List Char, (collapseWS l).Chain' NSSrel := by
  intro l
  induction l with
  | nil => simp [collapseWS]
  | cons a cs ih =>
    cases cs with
    | nil =>
      by_cases ha : isSpaceJS a
      · simp [collapseWS, ha]
      · simp [collapseWS, ha]
    | cons d t =>
      by_cases ha : isSpaceJS a
      · by_cases hd : isSpaceJS d
        · rw [show collapseWS (a :: d :: t) = collapseWS (d :: t) by
            simp [collapseWS, ha, hd]]
          exact ih
        · have hd2 : isSpaceJS d = false := by simpa using hd
          rw [show collapseWS (a :: d :: t) = ' ' :: collapseWS (d :: t) by
            simp [collapseWS, ha, hd]]
          rw [collapseWS_cons_of_not_space d t hd2]
          rw [List.chain'_cons]
          refine ⟨Or.inr hd2, ?_⟩
          rw [← collapseWS_cons_of_not_space d t hd2]
          exact ih
      · rw [show collapseWS (a :: d :: t) = a :: collapseWS (d :: t) by
          simp [collapseWS, ha]]
        rw [List.chain'_cons']
        refine ⟨fun y _ => Or.inl (by simpa using ha), ih⟩

theorem collapseWS_fix : ∀ l : List Char,
    (∀ c ∈ l, isSpaceJS c = true → c = ' ') → l.Chain' NSSrel → collapseWS l = l := by
  intro l
  induction l with
  | nil => intro _ _; rfl
  | cons a cs ih =>
    intro hsp hch
    cases cs with
    | nil =>
      by_cases ha : isSpaceJS a
      · have ha2 := hsp a (List.mem_cons_self _ _) (by simpa using ha)
        simp [collapseWS, ha, ha2]
      · simp [collapseWS, ha]
    | cons d t =>
      have hch2 := List.chain'_cons.mp hch
      have htail : ∀ c ∈ d :: t, isSpaceJS c = true → c = ' ' :=
        fun c hc h => hsp c (List.mem_cons_of_mem _ hc) h
      by_cases ha : isSpaceJS a
      · have had : isSpaceJS d = false := by
          rcases hch2.1 with h | h
          · rw [h] at ha; exact absurd ha (by simp)
          · exact h
        have ha2 := hsp a (List.mem_cons_self _ _) (by simpa using ha)
        rw [show collapseWS (a :: d :: t) = ' ' :: collapseWS (d :: t) by
          simp [collapseWS, ha, had]]
        rw [ih htail hch2.2, ha2]
      · rw [show collapseWS (a :: d :: t) = a :: collapseWS (d :: t) by
          simp [collapseWS, ha]]
        rw [ih htail hch2.2]

theorem dropWhile_head_false (p : Char → Bool) :
    ∀ (l : List Char) (c : Char) (t : List Char), l.dropWhile p = c :: t → p c = false := by
  intro l
  induction l with
  | nil => intro c t h; simp at h
  | cons a u ih =>
    intro c t h
    rw [List.dropWhile_cons] at h
    by_cases ha : p a
    · rw [if_pos ha] at h
      exact ih c t h
    · rw [if_neg ha] at h
      injection h with h1 _
      subst h1
      simpa using ha

theorem ltrimWS_idem (l : List Char) : ltrimWS (ltrimWS l) = ltrimWS l := by
  rw [ltrimWS, ltrimWS]
  cases h : l.dropWhile isSpaceJS with
  | nil => rfl
  | cons c t =>
    rw [List.dropWhile_cons, if_neg (by simp [dropWhile_head_false isSpaceJS l c t h])]

theorem rtrimWS_idem (l : List Char) : rtrimWS (rtrimWS l) = rtrimWS l := by
  rw [rtrimWS, rtrimWS, List.reverse_reverse, ltrimWS_idem]

theorem ltrimWS_rtrimWS (m : List Char) (hm : ltrimWS m = m) :
    ltrimWS (rtrimWS m) = rtrimWS m := by
  obtain ⟨pre, hp⟩ := List.dropWhile_suffix (l := m.reverse) isSpaceJS
  have htail : m = rtrimWS m ++ pre.reverse := by
    rw [rtrimWS, ltrimWS]
    calc m = m.reverse.reverse := (List.reverse_reverse m).symm
      _ = (pre ++ m.reverse.dropWhile isSpaceJS).reverse := by rw [hp]
      _ = (m.reverse.dropWhile isSpaceJS).reverse ++ pre.reverse := by
          rw [List.reverse_append]
  cases h : rtrimWS m with
  | nil => rfl
  | cons c u =>
    have hc : isSpaceJS c = false := by
      rw [h] at htail
      by_contra hcon
      have hc2 : isSpaceJS c = true := by simpa using hcon
      rw [htail] at hm
      rw [ltrimWS, List.cons_append, List.dropWhile_cons, if_pos hc2] at hm
      have hlen := congrArg List.length hm
      have hle := (List.dropWhile_sublist (l := u ++ pre.reverse) isSpaceJS).length_le
      simp at hlen hle
      omega
    rw [ltrimWS, List.dropWhile_cons, if_neg (by simp [hc])]

theorem trimWS_idem (l : List Char) : trimWS (trimWS l) = trimWS l := by
  rw [trimWS, trimWS, ltrimWS_rtrimWS (ltrimWS l) (ltrimWS_idem l), rtrimWS_idem]

theorem chain'_ltrimWS (l : List Char) (h : l.Chain' NSSrel) : (ltrimWS l).Chain' NSSrel :=
  h.suffix (List.dropWhile_suffix isSpaceJS)

theorem chain'_rtrimWS (l : List Char) (h : l.Chain' NSSrel) : (rtrimWS l).Chain' NSSrel := by
  have h2 : (l.reverse).Chain' (flip NSSrel) := by
    rw [← List.chain'_reverse (l := l.reverse)]
    rw [List.reverse_reverse]
    exact h
  have h1 : (ltrimWS l.reverse).Chain' (flip NSSrel) :=
    h2.suffix (List.dropWhile_suffix isSpaceJS)
  rw [rtrimWS, List.chain'_reverse]
  exact h1

theorem mem_trimWS (l : List Char) (c : Char) (h : c ∈ trimWS l) : c ∈ l := by
  simp only [trimWS, rtrimWS, ltrimWS] at h
  rw [List.mem_reverse] at h
  have h2 := (List.dropWhile_sublist isSpaceJS).subset h
  rw [List.mem_reverse] at h2
  exact (List.dropWhile_sublist isSpaceJS).subset h2

theorem normChars_chars (l : List Char) :
    ∀ c ∈ normChars l, isLowerAZ c = true ∨ c = ' ' := by
  intro c hc
  rw [normChars] at hc
  have h1 : c ∈ collapseWS (lowerFilter l) := mem_trimWS _ _ hc
  rcases mem_collapseWS _ _ h1 with h | ⟨hns, hmem⟩
  · exact Or.inr h
  · rw [lowerFilter] at hmem
    have h2 := (List.mem_filter.mp hmem).2
    rw [allowedChar, Bool.or_eq_true] at h2
    rcases h2 with h2 | h2
    · exact Or.inl h2
    · rw [hns] at h2
      exact absurd h2 (by simp)

theorem normChars_idem (l : List Char) : normChars (normChars l) = normChars l := by
  have hchars := normChars_chars l
  have hmap : (normChars l).map Char.toLower = normChars l := by
    calc (normChars l).map Char.toLower
        = (normChars l).map (fun c => c) :=
          List.map_congr_left (fun c hc => toLower_fix c (hchars c hc))
      _ = normChars l := List.map_id _
  have hfilter : (normChars l).filter allowedChar = normChars l := by
    refine List.filter_eq_self.mpr ?_
    intro c hc
    rcases hchars c hc with h | h
    · simp [allowedChar, h]
    · rw [h]
      decide
  have hlf : lowerFilter (normChars l) = normChars l := by
    rw [lowerFilter, hmap, hfilter]
  have hsp : ∀ c ∈ normChars l, isSpaceJS c = true → c = ' ' := by
    intro c hc hspace
    rcases hchars c hc with h | h
    · rw [isLowerAZ, decide_eq_true_iff] at h
      rw [isSpaceJS, decide_eq_true_iff] at hspace
      omega
    · exact h
  have hnss : (normChars l).Chain' NSSrel := by
    rw [normChars, trimWS]
    exact chain'_rtrimWS _ (chain'_ltrimWS _ (nss_collapseWS _))
  have hcol : collapseWS (normChars l) = normChars l := collapseWS_fix _ hsp hnss
  have htrim : trimWS (normChars l) = normChars l := by
    rw [normChars, trimWS_idem]
  rw [normChars, hlf, hcol, htrim]

/-- C8: the ingredient normalizer is a total function: the empty string maps
to the empty string, every output character is a lowercase letter or a
single space, and the normalizer is idempotent on every string. -/
theorem c8_normalize_total_idempotent :
    normalizeIngredient "" = "" ∧
    (∀ s : String,
      ((normalizeIngredient s).data.all (fun c => isLowerAZ c || (c == ' '))) = true) ∧
    (∀ s : String, normalizeIngredient (normalizeIngredient s) = normalizeIngredient s) := by
  refine ⟨rfl, ?_, ?_⟩
  · intro s
    rw [List.all_eq_true]
    intro c hc
    rcases normChars_chars s.data c hc with h | h
    · simp [h]
    · simp [h]
  · intro s
    show String.mk (normChars (String.mk (normChars s.data)).data) = String.mk (normChars s.data)
    exact congrArg String.mk (normChars_idem s.data)

/-! Cache-key determinism: casing invariance holds, ordering invariance
does not. -/

/-- Comma tokens of the raw ingredients parameter, lowercased character by
character; two inputs with this value in common differ only in casing. -/
def ingredientTokensLower (s : String) : List (List Char) :=
  (splitOnChar ',' s.data).map (fun t => t.map Char.toLower)

theorem normChars_congr_lower (t u : List Char) (h : t.map Char.toLower = u.map Char.toLower) :
    normChars t = normChars u := by
  rw [normChars, normChars, lowerFilter, lowerFilter, h]

theorem cleanIngredients_congr (s t : String)
    (h : ingredientTokensLower s = ingredientTokensLower t) :
    cleanIngredients s = cleanIngredients t := by
  rw [cleanIngredients, cleanIngredients]
  rw [List.map_map, List.map_map]
  have e : ∀ u : String, (splitOnChar ',' u.data).map (normalizeIngredient ∘ String.mk) =
      (ingredientTokensLower u).map
        (fun x => String.mk (trimWS (collapseWS (x.filter allowedChar)))) := by
    intro u
    rw [ingredientTokensLower, List.map_map]
    rfl
  rw [e, e, h]

set_option maxRecDepth 8000 in
/-- C1 counterexample: two requests whose ingredient tokens differ only in
ordering produce different cache keys, and the second request does not see
the entry cached by the first: it proceeds to the external catalog. -/
theorem c1_counterexample :
    decide (cacheKey "tomato,egg" 3 [] = cacheKey "egg,tomato" 3 []) = false ∧
    searchDecision
        (storeCache ([] : List (String × List Recipe))
          (cacheKey "tomato,egg" 3 (cuisineParam none)) [])
        (some "egg,tomato") 3 none =
      SearchOutcome.catalogCall "egg,tomato,salt,oil" :=
  ⟨by decide, by decide⟩

/-- C1 amended: for requests whose comma-separated ingredient tokens agree
up to casing, in the same order, and whose count and cuisine parameter are
identical, the orchestrator builds the same cache key, and a second request
finds the result the first stored under that key and serves it from the
cache. -/
theorem c1_cache_key_casing_amended :
    ∀ (s t : String) (n : Nat) (q : Option String) (cache : List (String × List Recipe))
      (v : List Recipe),
      ingredientTokensLower s = ingredientTokensLower t →
      cacheKey s n (cuisineParam q) = cacheKey t n (cuisineParam q) ∧
      searchDecision (storeCache cache (cacheKey s n (cuisineParam q)) v) (some t) n q =
        SearchOutcome.served v := by
  intro s t n q cache v h
  have hkey : cacheKey s n (cuisineParam q) = cacheKey t n (cuisineParam q) := by
    rw [cacheKey, cacheKey, finalIngredients, finalIngredients, ingSet, ingSet,
        cleanIngredients_congr s t h]
  refine ⟨hkey, ?_⟩
  simp only [searchDecision, storeCache, lookupAssoc]
  rw [if_pos hkey]

set_option maxRecDepth 8000 in
/-- Witness for the amended C1 with a concrete casing variation. -/
theorem c1_cache_key_casing_amended_witness :
    cacheKey "Tomato,EGG" 3 (cuisineParam none) = cacheKey "tomato,egg" 3 (cuisineParam none) ∧
    searchDecision (storeCache ([] : List (String × List Recipe))
        (cacheKey "Tomato,EGG" 3 (cuisineParam none)) []) (some "tomato,egg") 3 none =
      SearchOutcome.served [] :=
  c1_cache_key_casing_amended "Tomato,EGG" "tomato,egg" 3 none [] [] (by decide)

/-- C7: display cleaning strips the label prefix and the quantity and unit
tokens, as on the concrete input from the spec; the stored list is
duplicate-free, keeps first-seen order as a sublist of the cleaned list,
contains no empty string, and degrades to the one-element sentinel when
cleaning yields nothing. -/
theorem c7_cleaning_pipeline :
    cleanSubString "2 cups = oat milk" = "oat milk" ∧
    displaySubs "milk" ["2 cups = oat milk"] = ["oat milk"] ∧
    (∀ (ing : String) (subs : List String), (displaySubs ing subs).Nodup) ∧
    (∀ subs : List String, List.Sublist (uniqueSubs subs) ((cleanSubs subs).map trimStr)) ∧
    (∀ (ing : String) (subs : List String),
      (displaySubs ing subs).all (fun s => decide (0 < s.length)) = true) ∧
    (∀ (ing : String) (subs : List String),
      uniqueSubs subs = [] → displaySubs ing subs = ["No known substitutes for " ++ ing]) := by
  refine ⟨by decide, by decide, ?_, ?_, ?_, ?_⟩
  · intro ing subs
    rw [displaySubs]
    by_cases h : 0 < (uniqueSubs subs).length
    · rw [if_pos h]
      exact nodup_dedupFirst _
    · rw [if_neg h]
      exact List.nodup_singleton _
  · intro subs
    exact dedupFirst_sublist _
  · intro ing subs
    rw [displaySubs]
    by_cases h : 0 < (uniqueSubs subs).length
    · rw [if_pos h]
      rw [List.all_eq_true]
      intro x hx
      rw [uniqueSubs, mem_dedupFirst] at hx
      rcases List.mem_map.mp hx with ⟨y, hy, rfl⟩
      rw [cleanSubs] at hy
      have h1 := (List.mem_filter.mp hy).2
      rcases List.mem_map.mp (List.mem_filter.mp hy).1 with ⟨z, _, rfl⟩
      have h2 : trimStr (cleanSubString z) = cleanSubString z := by
        rw [cleanSubString, trimStr]
        exact congrArg String.mk (trimWS_idem _)
      rw [h2]
      exact h1
    · rw [if_neg h]
      rw [List.all_eq_true]
      intro x hx
      rw [List.mem_singleton] at hx
      subst hx
      rw [decide_eq_true_iff, String.length_append]
      have h25 : ("No known substitutes for " : String).length = 25 := rfl
      omega
  · intro ing subs h
    rw [displaySubs, if_neg (by rw [h]; simp)]

/-- Witness for C7: cleaning an input that vanishes entirely produces the
sentinel list. -/
theorem c7_cleaning_pipeline_witness :
    displaySubs "egg" [""] = ["No known substitutes for egg"] :=
  c7_cleaning_pipeline.2.2.2.2.2 "egg" [""] (by decide)
